import Mathlib

/-!
# Verification of the cleancont content pipeline

Shallow embedding of the core of the `cleancont` repository
(`cleaner/deduplicate.py`, `cleaner/yaml_utils.py`, `cleaner/html_to_markdown.py`)
and proofs about it.

Modelling conventions:
* Python `str` is modelled by `String` / `List Char`; `str.strip` by trimming
  ASCII whitespace, `str.lower` by `Char.toLower` (the inputs of interest are
  ASCII).
* Python dictionaries (`seen_hashes`, `seen_titles` in `find_duplicates`) are
  modelled by association lists where insertion prepends; lookup takes the
  most recent binding, which matches dictionary overwrite semantics.  The
  code only ever looks keys up, never iterates over a dictionary.
* `hashlib.md5(x).hexdigest()` is a deterministic digest of its input; the
  model uses the input string itself as the digest (deterministic and
  collision-free, which is the contract the code relies on).
* Python string comparison `>` is lexicographic on code points, as is the
  `String` order used here.
-/

namespace Cleancont

abbrev Chars := List Char

/-- Trim ASCII whitespace from both ends, modelling Python `str.strip()`. -/
def trimL (l : Chars) : Chars :=
  ((l.dropWhile Char.isWhitespace).reverse.dropWhile Char.isWhitespace).reverse

/-- Python `str.strip()` on `String`s. -/
def pyStrip (s : String) : String := ⟨trimL s.data⟩

/-- Python `str.lower()` (ASCII). -/
def pyLower (s : String) : String := ⟨s.data.map Char.toLower⟩

/-- Lexicographic comparison of code-point sequences, modelling Python `<`
on strings (`a > b` in Python is `pyStrLt b a`). -/
def charsLt : Chars → Chars → Bool
  | [], [] => false
  | [], _ :: _ => true
  | _ :: _, [] => false
  | a :: as, b :: bs =>
    if a.toNat < b.toNat then true
    else if b.toNat < a.toNat then false
    else charsLt as bs

/-- Python string `<`. -/
def pyStrLt (a b : String) : Bool := charsLt a.data b.data

/-! ## `cleaner/deduplicate.py` -/

/-- A WordPress post as consumed by `find_duplicates`:
`id` models `post.get('id')` (`none` when the key is missing),
`title` models `post['title']['rendered']`, `content` models
`post['content']['rendered']`, `date` models `post.get('date', '')`. -/
structure Post where
  id : Option Nat
  title : String
  content : String
  date : String
deriving DecidableEq, Repr

/-- `create_content_hash`: digest of `f"{title}\n{content}".strip()`.
The md5 hex digest is modelled by the (stripped) combined string itself:
the digest is a deterministic injective function of it. -/
def create_content_hash (post : Post) : String :=
  pyStrip (post.title ++ "\n" ++ post.content)

/-- The normalized title key `post['title']['rendered'].strip().lower()`. -/
def titleKey (post : Post) : String :=
  pyLower (pyStrip post.title)

/-- Duplicate-entry kind (the `'type'` field of a ledger dictionary). -/
inductive DupType
  | content_duplicate
  | title_duplicate
deriving DecidableEq, Repr

/-- The `'action'` field of a `title_duplicate` ledger dictionary. -/
inductive DupAction
  | kept_newer
  | kept_older
deriving DecidableEq, Repr

/-- One entry of the `duplicates` ledger built by `find_duplicates`.
`action` is `none` for content duplicates (the Python dict has no
`'action'` key in that case). -/
structure DupEntry where
  type : DupType
  original_id : Option Nat
  original_date : String
  duplicate_id : Option Nat
  duplicate_date : String
  title : String
  action : Option DupAction
deriving DecidableEq, Repr

/-- Lookup in an association list modelling a Python dict
(most recent binding wins, as with dict assignment). -/
def dictLookup (m : List (String × Post)) (k : String) : Option Post :=
  match m with
  | [] => none
  | (k', v) :: rest => if k = k' then some v else dictLookup rest k

/-- The loop state of `find_duplicates`: the two dictionaries and the two
output lists. -/
structure DedupState where
  seen_hashes : List (String × Post)
  seen_titles : List (String × Post)
  duplicates : List DupEntry
  unique_posts : List Post
deriving Repr

def dedupInit : DedupState := ⟨[], [], [], []⟩

/-- The `content_duplicate` ledger dictionary built at lines 38–45 of
`deduplicate.py`. -/
def contentDupEntry (original_post post : Post) : DupEntry :=
  { type := DupType.content_duplicate
    original_id := original_post.id
    original_date := original_post.date
    duplicate_id := post.id
    duplicate_date := post.date
    title := titleKey post
    action := none }

/-- The `title_duplicate` ledger dictionaries built at lines 55–63 and
68–76 of `deduplicate.py`. -/
def titleDupEntry (a : DupAction) (original_post post : Post) : DupEntry :=
  { type := DupType.title_duplicate
    original_id := original_post.id
    original_date := original_post.date
    duplicate_id := post.id
    duplicate_date := post.date
    title := titleKey post
    action := some a }

/-- One iteration of the `for post in posts` loop of `find_duplicates`. -/
def dedupStep (st : DedupState) (post : Post) : DedupState :=
  let content_hash := create_content_hash post
  let title := titleKey post
  match dictLookup st.seen_hashes content_hash with
  | some original_post =>
    -- `if content_hash in seen_hashes: ... continue`
    { st with duplicates := st.duplicates ++ [contentDupEntry original_post post] }
  | none =>
    -- `if title and title in seen_titles:`
    match (if title = "" then none else dictLookup st.seen_titles title) with
    | some original_post =>
      if pyStrLt original_post.date post.date then
        -- keep the newer post: drop every unique post whose id equals the
        -- old survivor's id, register the replacement in both tables
        { seen_hashes := (content_hash, post) :: st.seen_hashes
          seen_titles := (title, post) :: st.seen_titles
          duplicates := st.duplicates ++ [titleDupEntry DupAction.kept_newer original_post post]
          unique_posts :=
            (st.unique_posts.filter (fun p => decide (p.id ≠ original_post.id))) ++ [post] }
      else
        { st with duplicates := st.duplicates ++ [titleDupEntry DupAction.kept_older original_post post] }
    | none =>
      -- unique post
      { seen_hashes := (content_hash, post) :: st.seen_hashes
        seen_titles := if title = "" then st.seen_titles
                       else (title, post) :: st.seen_titles
        duplicates := st.duplicates
        unique_posts := st.unique_posts ++ [post] }

/-- `find_duplicates(posts)`: returns `(unique_posts, duplicates)`. -/
def find_duplicates (posts : List Post) : List Post × List DupEntry :=
  let st := posts.foldl dedupStep dedupInit
  (st.unique_posts, st.duplicates)

/-! ### Concrete inputs used by the deduplication claims -/

/-- C1: record A (date "2020-01-01", title "X"). -/
def c1A : Post := { id := some 1, title := "X", content := "body one", date := "2020-01-01" }

/-- C1: record B (date "2020-06-01", title "X", different body). -/
def c1B : Post := { id := some 2, title := "X", content := "body two", date := "2020-06-01" }

/-- C4 witness: an accepted post. -/
def c4P : Post := { id := some 5, title := "W", content := "same body", date := "2020-01-01" }

/-- C4 witness: same title and content as `c4P`, different id and date. -/
def c4R : Post := { id := some 9, title := "W", content := "same body", date := "2021-12-31" }

/-- C9: first accepted post, id 1, title "a". -/
def c9P1 : Post := { id := some 1, title := "a", content := "x", date := "2020-01-01" }

/-- C9: second accepted post sharing id 1, title "b". -/
def c9P2 : Post := { id := some 1, title := "b", content := "y", date := "2020-01-02" }

/-- C9: newer title duplicate of `c9P1` with id 2. -/
def c9P3 : Post := { id := some 2, title := "a", content := "z", date := "2020-02-01" }

/-- C10: post later replaced by a newer title duplicate. -/
def c10Q1 : Post := { id := some 1, title := "t", content := "x", date := "2020-01-01" }

/-- C10: newer title duplicate replacing `c10Q1`. -/
def c10Q2 : Post := { id := some 2, title := "t", content := "y", date := "2020-06-01" }

/-- C10: same content as the discarded `c10Q1`. -/
def c10Q3 : Post := { id := some 3, title := "t", content := "x", date := "2020-07-01" }

/-! ## `cleaner/yaml_utils.py`

The regex substitutions of the source are modelled by scanner rules fed to
a generic leftmost, non-overlapping rewrite driver (`rwAll`): at each
position the rule either matches a non-empty prefix, yielding a
replacement and the rest of the input, or the driver keeps the character
and moves on — exactly the semantics of `re.sub` for these patterns
(replacements are not rescanned). -/

/-- The apostrophe character (`'`). -/
def sqChar : Char := Char.ofNat 39

/-- The apostrophe as a one-character string. -/
def sqStr : String := ⟨[sqChar]⟩

/-- Leftmost non-overlapping rewrite, fuelled by the input length (every
rule used below consumes at least one character on a match, so the fuel
never runs out). -/
def rwFuel (rule : Chars → Option (Chars × Chars)) : Nat → Chars → Chars
  | 0, l => l
  | _ + 1, [] => []
  | fuel + 1, c :: rest =>
    match rule (c :: rest) with
    | some (rep, rest') => rep ++ rwFuel rule fuel rest'
    | none => c :: rwFuel rule fuel rest

/-- `re.sub(pattern, repl, s)` for a pattern expressed as a scanner rule. -/
def rwAll (rule : Chars → Option (Chars × Chars)) (l : Chars) : Chars :=
  rwFuel rule l.length l

/-- Split at the first occurrence of character `t`, returning the part
before it and the part after it (`t` itself dropped). -/
def breakAtChar (t : Char) : Chars → Option (Chars × Chars)
  | [] => none
  | c :: rest =>
    if c = t then some ([], rest)
    else (breakAtChar t rest).map (fun ba => (c :: ba.1, ba.2))

/-- `re.sub(r'\s+', ' ', s)`: collapse every whitespace run to one space.
The flag records whether the previous character belonged to a run. -/
def collapseWsAux : Bool → Chars → Chars
  | _, [] => []
  | prevWs, c :: rest =>
    if c.isWhitespace then
      if prevWs then collapseWsAux true rest
      else ' ' :: collapseWsAux true rest
    else c :: collapseWsAux false rest

/-- Scanner rule for `html.unescape`, modelled for the predefined XML
entities (the full named-entity table of the Python standard library is
data, not logic; the code only relies on unescaping being deterministic). -/
def entityRule (l : Chars) : Option (Chars × Chars) :=
  if "&amp;".data.isPrefixOf l then some (['&'], l.drop 5)
  else if "&lt;".data.isPrefixOf l then some (['<'], l.drop 4)
  else if "&gt;".data.isPrefixOf l then some (['>'], l.drop 4)
  else if "&quot;".data.isPrefixOf l then some (['"'], l.drop 6)
  else if "&#34;".data.isPrefixOf l then some (['"'], l.drop 5)
  else if "&#39;".data.isPrefixOf l then some ([sqChar], l.drop 5)
  else none

/-- Python `html.unescape` (see `entityRule`). -/
def html_unescape (s : String) : String := ⟨rwAll entityRule s.data⟩

/-- `s.replace('\\', '\\\\').replace('"', '\\"')`: the escaping applied in
the final branch of `sanitize_yaml_string`. -/
def escapeBackslashesQuotes (s : String) : String :=
  ⟨((s.data.map (fun c => if c = '\\' then ['\\', '\\'] else [c])).flatten.map
      (fun c => if c = '"' then ['\\', '"'] else [c])).flatten⟩

/-- Does the string contain the character? (Python `c in s`.) -/
def hasChar (s : String) (c : Char) : Bool := s.data.contains c

/-- `sanitize_yaml_string` from `yaml_utils.py`: unescape HTML entities,
strip, then choose the quoting strategy. -/
def sanitize_yaml_string (text : String) : String :=
  if text = "" then ""
  else
    let t := pyStrip (html_unescape text)
    if hasChar t '"' && !hasChar t sqChar then sqStr ++ t ++ sqStr
    else if hasChar t sqChar && !hasChar t '"' then "\"" ++ t ++ "\""
    else "\"" ++ escapeBackslashesQuotes t ++ "\""

/-- Rule for `re.sub(r'src\s*=\s*>', 'src="">', text)`. -/
def srcGtRule (l : Chars) : Option (Chars × Chars) :=
  if "src".data.isPrefixOf l then
    match ((l.drop 3).dropWhile Char.isWhitespace) with
    | '=' :: l1 =>
      match l1.dropWhile Char.isWhitespace with
      | '>' :: rest => some ("src=\"\">".data, rest)
      | _ => none
    | _ => none
  else none

/-- Rule for `re.sub(r'src\s*=\s*$', 'src=""', text)`: the anchor `$`
(without `re.MULTILINE`) only lets the match reach the end of the string,
with the greedy `\s*` absorbing any trailing whitespace. -/
def srcEndRule (l : Chars) : Option (Chars × Chars) :=
  if "src".data.isPrefixOf l then
    match ((l.drop 3).dropWhile Char.isWhitespace) with
    | '=' :: l1 =>
      if l1.all Char.isWhitespace then some ("src=\"\"".data, [])
      else none
    | _ => none
  else none

/-- Rule for `re.sub(r'="([^"]*)"', r"='\1'", tag)` inside
`fix_html_quotes`. -/
def attrQuoteRule (l : Chars) : Option (Chars × Chars) :=
  match l with
  | '=' :: '"' :: rest =>
    (breakAtChar '"' rest).map (fun ba => ('=' :: sqChar :: (ba.1 ++ [sqChar]), ba.2))
  | _ => none

/-- Rule for `re.sub(r'<[^>]+>', fix_html_quotes, text)`: each HTML tag
(at least one non-`>` character between the brackets) is rewritten by
converting its double-quoted attribute values to single quotes. -/
def tagQuoteRule (l : Chars) : Option (Chars × Chars) :=
  match l with
  | '<' :: c :: rest =>
    if c = '>' then none
    else
      (breakAtChar '>' (c :: rest)).map (fun ba =>
        (rwAll attrQuoteRule (('<' :: ba.1) ++ ['>']), ba.2))
  | _ => none

/-- `sanitize_html_in_yaml` from `yaml_utils.py`. -/
def sanitize_html_in_yaml (text : String) : String :=
  if text = "" then ""
  else
    let t1 := rwAll srcGtRule text.data
    let t2 := rwAll srcEndRule t1
    let t3 := rwAll tagQuoteRule t2
    ⟨t3⟩

/-- Rule for complete markdown links
`re.sub(r'\[([^\]]+)\]\([^\)]+\)', ..., text)`: keep just the link text. -/
def completeLinkRule (l : Chars) : Option (Chars × Chars) :=
  match l with
  | '[' :: rest =>
    match breakAtChar ']' rest with
    | some (inner, a1) =>
      if inner = [] then none
      else
        match a1 with
        | '(' :: a2 =>
          match breakAtChar ')' a2 with
          | some (url, a3) => if url = [] then none else some (inner, a3)
          | none => none
        | _ => none
    | none => none
  | _ => none

/-- End position (index just past the last dot) of the last run of three
or more consecutive dots, scanning with the current index, the length of
the current dot run and the best end found so far. -/
def lastDotRunEnd : Chars → Nat → Nat → Option Nat → Option Nat
  | [], _, _, best => best
  | c :: rest, idx, run, best =>
    if c = '.' then
      let run' := run + 1
      lastDotRunEnd rest (idx + 1) run' (if 3 ≤ run' then some (idx + 1) else best)
    else lastDotRunEnd rest (idx + 1) 0 best

/-- Rule for truncated links `re.sub(r'\[([^\]]+)\]\([^)]*\.{3,}', ..., text)`:
the greedy `[^)]*` makes the match swallow up to the end of the last run of
three-plus dots inside the non-`)` region. -/
def dotsLinkRule (l : Chars) : Option (Chars × Chars) :=
  match l with
  | '[' :: rest =>
    match breakAtChar ']' rest with
    | some (inner, a1) =>
      if inner = [] then none
      else
        match a1 with
        | '(' :: a2 =>
          let region := a2.takeWhile (fun c => decide (c ≠ ')'))
          match lastDotRunEnd region 0 0 none with
          | some k => some (inner, a2.drop k)
          | none => none
        | _ => none
    | none => none
  | _ => none

/-- Rule for `re.sub(r'\[([^\]]+)\]\([^)]*$', ..., text)`: a link whose
URL part runs to the end of the string without a closing parenthesis. -/
def endLinkRule (l : Chars) : Option (Chars × Chars) :=
  match l with
  | '[' :: rest =>
    match breakAtChar ']' rest with
    | some (inner, a1) =>
      if inner = [] then none
      else
        match a1 with
        | '(' :: a2 => if a2.contains ')' then none else some (inner, [])
        | _ => none
    | none => none
  | _ => none

/-- Rule for `re.sub(r'\[([^\]]+)\]\([^)]*', r'\1', text)`: any residual
bracket-plus-paren remnant; the closing parenthesis, if any, is not part
of the match and survives. -/
def residualLinkRule (l : Chars) : Option (Chars × Chars) :=
  match l with
  | '[' :: rest =>
    match breakAtChar ']' rest with
    | some (inner, a1) =>
      if inner = [] then none
      else
        match a1 with
        | '(' :: a2 => some (inner, a2.dropWhile (fun c => decide (c ≠ ')')))
        | _ => none
    | none => none
  | _ => none

/-- `sanitize_markdown_links_in_yaml` from `yaml_utils.py`. -/
def sanitize_markdown_links_in_yaml (text : String) : String :=
  if text = "" then ""
  else
    let t1 := rwAll completeLinkRule text.data
    let t2 := rwAll dotsLinkRule t1
    let t3 := rwAll endLinkRule t2
    let t4 := rwAll residualLinkRule t3
    ⟨trimL (collapseWsAux false t4)⟩

/-- `s.split(sep)` on character lists (all occurrences; the Python call
uses `maxsplit=2` but the code only reads `parts[1]` and `len(parts)`,
on which the two splits agree).  Fuelled by the input length; for a
non-empty separator the fuel never runs out. -/
def splitOnAux (sep : Chars) : Nat → Chars → List Chars
  | _, [] => [[]]
  | 0, l => [l]
  | fuel + 1, c :: rest =>
    if sep.isPrefixOf (c :: rest) then
      [] :: splitOnAux sep fuel ((c :: rest).drop sep.length)
    else
      match splitOnAux sep fuel rest with
      | [] => [[c]]
      | h :: t => (c :: h) :: t

/-- Python `s.split(sep)` for a non-empty separator. -/
def splitOnL (sep : Chars) (l : Chars) : List Chars :=
  splitOnAux sep l.length l

/-- The separator `---` of the front-matter markers. -/
def dash3 : Chars := ['-', '-', '-']

/-- Does `sep` occur (as a contiguous subsequence) anywhere in the list? -/
def hasSeq (sep : Chars) : Chars → Bool
  | [] => false
  | c :: rest => sep.isPrefixOf (c :: rest) || hasSeq sep rest

/-- A date/type value is clean for the fallback header when it contains no
double quote, no single quote, no newline and no `---` sequence; the
fallback interpolates these two fields raw, so such characters would break
its lines or the marker split. -/
def cleanHeaderValue (s : String) : Bool :=
  !hasChar s '"' && !hasChar s sqChar && !hasChar s '\n' && !hasSeq dash3 s.data

/-- Prepend a chunk onto the first piece of a split result. -/
def consHead (a : Chars) : List Chars → List Chars
  | [] => [a]
  | h :: t => (a ++ h) :: t

/-- The per-line checks of the basic validation path: a stripped non-empty
line containing a colon must have an even number of double quotes and an
even number of single quotes; the first offending line aborts with an
error message. -/
def checkLines : List Chars → Bool × String
  | [] => (true, "")
  | line :: rest =>
    let l := trimL line
    if !l.isEmpty && l.contains ':' then
      if l.count '"' % 2 ≠ 0 then
        (false, "Unbalanced quotes in line: " ++ ⟨l⟩)
      else if l.count sqChar % 2 ≠ 0 then
        (false, "Unbalanced single quotes in line: " ++ ⟨l⟩)
      else checkLines rest
    else checkLines rest

/-- `validate_yaml_front_matter` from `yaml_utils.py`, in the environment
without PyYAML (`HAS_YAML = False`): the in-repository basic validator.
Returns `(is_valid, error_message)`. -/
def validate_yaml_front_matter (t : String) : Bool × String :=
  if "---".data.isPrefixOf t.data then
    match splitOnL "---".data t.data with
    | _ :: p1 :: _ => checkLines (splitOnL ['\n'] (trimL p1))
    | _ => (false, "Invalid front matter format")
  else checkLines (splitOnL ['\n'] t.data)

/-- Python `sep.join(parts)`. -/
def joinSep (sep : String) : List String → String
  | [] => ""
  | [x] => x
  | x :: xs => x ++ sep ++ joinSep sep xs

/-- The front-matter block assembled by `create_safe_front_matter` before
validation. -/
def assembled_front_matter (title subtitle category : String) (tags : List String)
    (date post_type : String) (wordpress_id : Option Nat) : String :=
  let safe_title := sanitize_yaml_string title
  let subtitle_cleaned := sanitize_markdown_links_in_yaml (sanitize_html_in_yaml subtitle)
  let safe_subtitle := sanitize_yaml_string subtitle_cleaned
  let safe_category := sanitize_yaml_string category
  let tags_yaml :=
    if tags.isEmpty then "[]"
    else "[" ++ joinSep ", " (tags.map sanitize_yaml_string) ++ "]"
  joinSep "\n"
    (["---",
      "title: " ++ safe_title,
      "subtitle: " ++ safe_subtitle,
      "category: " ++ safe_category,
      "tags: " ++ tags_yaml,
      "date: " ++ sanitize_yaml_string date,
      "type: " ++ sanitize_yaml_string post_type] ++
     (match wordpress_id with
      | some n => ["wordpress_id: " ++ toString n]
      | none => []) ++
     ["---", ""])

/-- The hard-coded fallback block returned when validation fails; note
that `date` and `post_type` are interpolated raw, without sanitization. -/
def fallback_front_matter (date post_type : String) : String :=
  "---\ntitle: \"Post Title\"\nsubtitle: \"\"\ncategory: \"uncategorized\"\ntags: []\ndate: \""
    ++ date ++ "\"\ntype: \"" ++ post_type ++ "\"\n---\n\n"

/-! Fixed segments of the fallback block, used to analyse its validation:
the four constant lines, the prefixes of the two interpolated lines, and
the whole body between the `---` markers. -/

/-- Fallback line `title: "Post Title"`. -/
def fbLine1 : Chars := "title: \"Post Title\"".data

/-- Fallback line `subtitle: ""`. -/
def fbLine2 : Chars := "subtitle: \"\"".data

/-- Fallback line `category: "uncategorized"`. -/
def fbLine3 : Chars := "category: \"uncategorized\"".data

/-- Fallback line `tags: []`. -/
def fbLine4 : Chars := "tags: []".data

/-- Prefix of the fallback date line, up to the opening quote. -/
def fbDatePre : Chars := "date: \"".data

/-- Prefix of the fallback type line, up to the opening quote. -/
def fbTypePre : Chars := "type: \"".data

/-- The six `key: value` lines of the fallback block, joined by newlines:
the text strictly between the `---` markers, without the surrounding
newlines. -/
def fbBody (date post_type : String) : Chars :=
  fbLine1 ++ '\n' :: (fbLine2 ++ '\n' :: (fbLine3 ++ '\n' :: (fbLine4 ++ '\n' ::
    ((fbDatePre ++ date.data ++ ['"']) ++ '\n' :: (fbTypePre ++ post_type.data ++ ['"'])))))

/-- The dash-free text of the fallback block from the character after the
opening `---` up to the opening quote of the date value. -/
def fbPre1 : Chars :=
  '\n' :: (fbLine1 ++ '\n' :: (fbLine2 ++ '\n' :: (fbLine3 ++ '\n' :: (fbLine4 ++ '\n' :: fbDatePre))))

/-- The dash-free text of the fallback block between the date value and
the type value. -/
def fbMid2 : Chars := '"' :: '\n' :: fbTypePre

/-- The text of the fallback block between the type value and the closing
`---`. -/
def fbEnd3 : Chars := ['"', '\n']

/-- `create_safe_front_matter` from `yaml_utils.py` (`tags` is modelled as
a list, the only shape the pipeline passes; a non-list argument would
serialize as `[]`). -/
def create_safe_front_matter (title subtitle category : String) (tags : List String)
    (date post_type : String) (wordpress_id : Option Nat) : String :=
  let front_matter_text := assembled_front_matter title subtitle category tags date post_type wordpress_id
  if (validate_yaml_front_matter front_matter_text).1 then front_matter_text
  else fallback_front_matter date post_type

/-! ## `cleaner/html_to_markdown.py`

Every `re.sub` of the conversion pipeline is modelled as a scanner rule
for the `rwAll` driver, in the exact order of the source.  Patterns
compiled with `re.IGNORECASE` match tag names case-insensitively;
`[^>]*>` is modelled by skipping to the closing `>`; the non-greedy
`(.*?)` before a closing tag takes the earliest occurrence of that tag;
greedy `[^>]+key=` scans prefer the last viable occurrence of `key=`
before the tag closes, backtracking to earlier ones (the behaviour of a
greedy character class followed by a literal). -/

/-- The backtick character. -/
def btChar : Char := Char.ofNat 96

/-- Case-insensitive character comparison (`re.IGNORECASE`). -/
def charCI (a b : Char) : Bool := a.toLower == b.toLower

/-- Case-insensitively strip a literal pattern from the front. -/
def stripLitCI : Chars → Chars → Option Chars
  | [], l => some l
  | _ :: _, [] => none
  | p :: ps, c :: cs => if charCI p c then stripLitCI ps cs else none

/-- Non-greedy scan `(.*?)pat`: split at the earliest (case-insensitive)
occurrence of `pat`, returning the text before it and the text after it. -/
def splitUntilCI (pat : Chars) : Chars → Option (Chars × Chars)
  | [] => none
  | c :: rest =>
    match stripLitCI pat (c :: rest) with
    | some after => some ([], after)
    | none => (splitUntilCI pat rest).map (fun ba => (c :: ba.1, ba.2))

/-- `[^>]*>`: drop attribute characters up to and including the `>`. -/
def skipToGt : Chars → Option Chars
  | [] => none
  | '>' :: rest => some rest
  | _ :: rest => skipToGt rest

/-- Rule for `re.sub(r'<(script|style)[^>]*>.*?</\1>', '', html)`. -/
def scriptStyleRule (l : Chars) : Option (Chars × Chars) :=
  match stripLitCI "<script".data l with
  | some l1 =>
    (skipToGt l1).bind (fun l2 =>
      (splitUntilCI "</script>".data l2).map (fun ba => (([] : Chars), ba.2)))
  | none =>
    match stripLitCI "<style".data l with
    | some l1 =>
      (skipToGt l1).bind (fun l2 =>
        (splitUntilCI "</style>".data l2).map (fun ba => (([] : Chars), ba.2)))
    | none => none

/-- Rule for `re.sub(r'<!--.*?-->', '', html)`. -/
def commentRule (l : Chars) : Option (Chars × Chars) :=
  if "<!--".data.isPrefixOf l then
    (splitUntilCI "-->".data (l.drop 4)).map (fun ba => (([] : Chars), ba.2))
  else none

/-- Rule for `re.sub(r'<[^>]+>', '', html)`: drop any remaining tag with at
least one character between the brackets. -/
def stripTagRule (l : Chars) : Option (Chars × Chars) :=
  match l with
  | '<' :: c :: rest =>
    if c = '>' then none
    else (skipToGt (c :: rest)).map (fun r => (([] : Chars), r))
  | _ => none

/-- `strip_html_tags` from `html_to_markdown.py`: drop script/style blocks
and comments, unescape entities, drop all tags, collapse whitespace,
strip. -/
def strip_html_tags (s : String) : String :=
  let h1 := rwAll scriptStyleRule s.data
  let h2 := rwAll commentRule h1
  let h3 := rwAll entityRule h2
  let h4 := rwAll stripTagRule h3
  ⟨trimL (collapseWsAux false h4)⟩

/-- Rule for headings `re.sub(r'<h([1-6])[^>]*>(.*?)</h\1>', ...)`:
the replacement is `'#' * level + ' ' + strip_html_tags(inner)`. -/
def headingRule (l : Chars) : Option (Chars × Chars) :=
  match l with
  | '<' :: h :: d :: rest =>
    if charCI 'h' h && (decide ('1' ≤ d) && decide (d ≤ '6')) then
      (skipToGt rest).bind (fun l2 =>
        (splitUntilCI ("</h".data ++ [d] ++ ['>']) l2).map (fun ba =>
          (List.replicate (d.toNat - '0'.toNat) '#' ++
             (' ' :: (strip_html_tags ⟨ba.1⟩).data), ba.2)))
    else none
  | _ => none

/-- Generic rule for `<name[^>]*>(.*?)</name>` rewritten to
`pre ++ inner ++ post`. -/
def pairTagRule (name : Chars) (pre post : Chars) (l : Chars) : Option (Chars × Chars) :=
  (stripLitCI ('<' :: name) l).bind (fun l1 =>
    (skipToGt l1).bind (fun l2 =>
      (splitUntilCI (('<' :: '/' :: name) ++ ['>']) l2).map (fun ba =>
        (pre ++ ba.1 ++ post, ba.2))))

/-- Rule for paragraphs `re.sub(r'<p[^>]*>(.*?)</p>', r'\1\n\n', ...)`. -/
def paragraphRule (l : Chars) : Option (Chars × Chars) :=
  pairTagRule "p".data [] ['\n', '\n'] l

/-- Rule for `re.sub(r'<br[^>]*/?>', '\n', ...)` (the optional `/` is
already covered by `[^>]*`). -/
def brRule (l : Chars) : Option (Chars × Chars) :=
  (stripLitCI "<br".data l).bind (fun l1 =>
    (skipToGt l1).map (fun r => (['\n'], r)))

/-- Rule for bold `re.sub(r'<(strong|b)[^>]*>(.*?)</\1>', r'**\2**', ...)`;
the alternation tries `strong` first. -/
def boldRule (l : Chars) : Option (Chars × Chars) :=
  match pairTagRule "strong".data "**".data "**".data l with
  | some r => some r
  | none => pairTagRule "b".data "**".data "**".data l

/-- Rule for italic `re.sub(r'<(em|i)[^>]*>(.*?)</\1>', r'*\2*', ...)`. -/
def italicRule (l : Chars) : Option (Chars × Chars) :=
  match pairTagRule "em".data "*".data "*".data l with
  | some r => some r
  | none => pairTagRule "i".data "*".data "*".data l

/-- Either quote character of the class `["\']`. -/
def isQuoteChar (c : Char) : Bool := c == '"' || c == sqChar

/-- Suffixes following each viable occurrence of `key` inside a `[^>]`
region: position `j` counts characters consumed since the region began,
a match needs `minPos ≤ j` (1 for `[^>]+`, 0 for `[^>]*`), and the scan
stops at the first `>`. -/
def keyCandidates (key : Chars) (minPos : Nat) : Chars → Nat → List Chars
  | [], _ => []
  | c :: rest, j =>
    (if minPos ≤ j then
       (match stripLitCI key (c :: rest) with
        | some a => [a]
        | none => [])
     else []) ++
    (if c = '>' then [] else keyCandidates key minPos rest (j + 1))

/-- Greedy backtracking: try the last candidate first, falling back to
earlier ones until the continuation succeeds. -/
def pickLastCand {α β : Type} (f : α → Option β) : List α → Option β
  | [] => none
  | a :: rest =>
    match pickLastCand f rest with
    | some b => some b
    | none => f a

/-- Continuation of the link rule after `href=`: a quote, a non-empty
`[^"\']+` URL, a quote, `[^>]*>`, then the non-greedy link text up to
`</a>`; the replacement is `[text](url)`. -/
def linkCont (after : Chars) : Option (Chars × Chars) :=
  match after with
  | q :: rest =>
    if isQuoteChar q then
      let url := rest.takeWhile (fun c => !isQuoteChar c)
      if url.isEmpty then none
      else
        match rest.drop url.length with
        | q2 :: rest2 =>
          if isQuoteChar q2 then
            (skipToGt rest2).bind (fun l3 =>
              (splitUntilCI "</a>".data l3).map (fun ba =>
                (('[' :: ba.1) ++ (']' :: '(' :: url) ++ [')'], ba.2)))
          else none
        | [] => none
    else none
  | [] => none

/-- Rule for links
`re.sub(r'<a[^>]+href=["\']([^"\']+)["\'][^>]*>(.*?)</a>', r'[\2](\1)', ...)`. -/
def linkRule (l : Chars) : Option (Chars × Chars) :=
  (stripLitCI "<a".data l).bind (fun l1 =>
    pickLastCand linkCont (keyCandidates "href=".data 1 l1 0))

/-- Continuation of the image-with-alt rule after `alt=`: a quote, a
possibly empty `[^"\']*` alt text, a quote, `[^>]*/?>`. -/
def imgAltCont2 (url : Chars) (after2 : Chars) : Option (Chars × Chars) :=
  match after2 with
  | q :: rest =>
    if isQuoteChar q then
      let alt := rest.takeWhile (fun c => !isQuoteChar c)
      match rest.drop alt.length with
      | q2 :: rest2 =>
        if isQuoteChar q2 then
          (skipToGt rest2).map (fun r =>
            (('!' :: '[' :: alt) ++ (']' :: '(' :: url) ++ [')'], r))
        else none
      | [] => none
    else none
  | [] => none

/-- Continuation of the image-with-alt rule after `src=`. -/
def imgAltCont (after : Chars) : Option (Chars × Chars) :=
  match after with
  | q :: rest =>
    if isQuoteChar q then
      let url := rest.takeWhile (fun c => !isQuoteChar c)
      if url.isEmpty then none
      else
        match rest.drop url.length with
        | q2 :: rest2 =>
          if isQuoteChar q2 then
            pickLastCand (imgAltCont2 url) (keyCandidates "alt=".data 0 rest2 0)
          else none
        | [] => none
    else none
  | [] => none

/-- Rule for images with alt text
`re.sub(r'<img[^>]+src=["\']([^"\']+)["\'][^>]*alt=["\']([^"\']*)["\'][^>]*/?>', r'![\2](\1)', ...)`. -/
def imgAltRule (l : Chars) : Option (Chars × Chars) :=
  (stripLitCI "<img".data l).bind (fun l1 =>
    pickLastCand imgAltCont (keyCandidates "src=".data 1 l1 0))

/-- Continuation of the plain image rule after `src=`. -/
def imgSrcCont (after : Chars) : Option (Chars × Chars) :=
  match after with
  | q :: rest =>
    if isQuoteChar q then
      let url := rest.takeWhile (fun c => !isQuoteChar c)
      if url.isEmpty then none
      else
        match rest.drop url.length with
        | q2 :: rest2 =>
          if isQuoteChar q2 then
            (skipToGt rest2).map (fun r =>
              (('!' :: '[' :: ']' :: '(' :: url) ++ [')'], r))
          else none
        | [] => none
    else none
  | [] => none

/-- Rule for images without alt text
`re.sub(r'<img[^>]+src=["\']([^"\']+)["\'][^>]*/?>', r'![](\1)', ...)`. -/
def imgSrcRule (l : Chars) : Option (Chars × Chars) :=
  (stripLitCI "<img".data l).bind (fun l1 =>
    pickLastCand imgSrcCont (keyCandidates "src=".data 1 l1 0))

/-- Rule for `re.sub(r'<ul[^>]*>', '', ...)`. -/
def ulOpenRule (l : Chars) : Option (Chars × Chars) :=
  (stripLitCI "<ul".data l).bind (fun l1 =>
    (skipToGt l1).map (fun r => (([] : Chars), r)))

/-- Rule for `re.sub(r'</ul>', '\n', ...)`. -/
def ulCloseRule (l : Chars) : Option (Chars × Chars) :=
  (stripLitCI "</ul>".data l).map (fun r => (['\n'], r))

/-- Rule for list items `re.sub(r'<li[^>]*>(.*?)</li>', r'- \1', ...)`:
note that this runs before the ordered-list tags are removed, so items of
ordered lists are rewritten to `- item` as well. -/
def liRule (l : Chars) : Option (Chars × Chars) :=
  pairTagRule "li".data ['-', ' '] [] l

/-- Rule for `re.sub(r'<ol[^>]*>', '', ...)`. -/
def olOpenRule (l : Chars) : Option (Chars × Chars) :=
  (stripLitCI "<ol".data l).bind (fun l1 =>
    (skipToGt l1).map (fun r => (([] : Chars), r)))

/-- Rule for `re.sub(r'</ol>', '\n', ...)`. -/
def olCloseRule (l : Chars) : Option (Chars × Chars) :=
  (stripLitCI "</ol>".data l).map (fun r => (['\n'], r))

/-- Rule for blockquotes
`re.sub(r'<blockquote[^>]*>(.*?)</blockquote>', r'> \1', ...)`. -/
def blockquoteRule (l : Chars) : Option (Chars × Chars) :=
  pairTagRule "blockquote".data ['>', ' '] [] l

/-- The three-backtick fence. -/
def fenceChars : Chars := List.replicate 3 btChar

/-- Rule for `re.sub(r'<pre[^>]*><code[^>]*>(.*?)</code></pre>', ...)`. -/
def preCodeRule (l : Chars) : Option (Chars × Chars) :=
  (stripLitCI "<pre".data l).bind (fun l1 =>
    (skipToGt l1).bind (fun l2 =>
      (stripLitCI "<code".data l2).bind (fun l3 =>
        (skipToGt l3).bind (fun l4 =>
          (splitUntilCI "</code></pre>".data l4).map (fun ba =>
            (fenceChars ++ ('\n' :: ba.1) ++ ('\n' :: fenceChars), ba.2))))))

/-- Rule for `re.sub(r'<pre[^>]*>(.*?)</pre>', ...)`. -/
def preRule (l : Chars) : Option (Chars × Chars) :=
  pairTagRule "pre".data (fenceChars ++ ['\n']) ('\n' :: fenceChars) l

/-- Rule for inline code `re.sub(r'<code[^>]*>(.*?)</code>', ...)`. -/
def codeRule (l : Chars) : Option (Chars × Chars) :=
  pairTagRule "code".data [btChar] [btChar] l

/-- Rule for `re.sub(r'\n\s*\n\s*\n', '\n\n', ...)`: the greedy `\s*`
groups make the match run from a newline to the last newline of the
maximal whitespace run containing at least three newlines. -/
def tripleNlRule (l : Chars) : Option (Chars × Chars) :=
  match l with
  | '\n' :: _ =>
    let run := l.takeWhile Char.isWhitespace
    if 3 ≤ run.count '\n' then
      let tailNonNl := (run.reverse.takeWhile (fun c => decide (c ≠ '\n'))).length
      some (['\n', '\n'], l.drop (run.length - tailNonNl))
    else none
  | _ => none

/-- Rule for `re.sub(r'[ \t]+', ' ', ...)`. -/
def spaceTabRule (l : Chars) : Option (Chars × Chars) :=
  match l with
  | c :: _ =>
    if c == ' ' || c == '\t' then
      some ([' '], l.drop ((l.takeWhile (fun x => x == ' ' || x == '\t')).length))
    else none
  | _ => none

/-- `html_to_markdown` from `html_to_markdown.py`: the fixed-order rewrite
pipeline.  The source also defines an ordered-list item counter
(`replace_ol_item`, lines 68–74 of the file) between the `</ol>` and
blockquote rewrites, but never passes it to `re.sub`; it is dead code, so
list items of ordered lists keep the `- item` form produced by the
`<li>` rule. -/
def html_to_markdown (html : String) : String :=
  if html = "" || pyStrip html = "" then ""
  else
    let s0 := rwAll entityRule html.data
    let s1 := rwAll headingRule s0
    let s2 := rwAll paragraphRule s1
    let s3 := rwAll brRule s2
    let s4 := rwAll boldRule s3
    let s5 := rwAll italicRule s4
    let s6 := rwAll linkRule s5
    let s7 := rwAll imgAltRule s6
    let s8 := rwAll imgSrcRule s7
    let s9 := rwAll ulOpenRule s8
    let s10 := rwAll ulCloseRule s9
    let s11 := rwAll liRule s10
    let s12 := rwAll olOpenRule s11
    let s13 := rwAll olCloseRule s12
    let s14 := rwAll blockquoteRule s13
    let s15 := rwAll preCodeRule s14
    let s16 := rwAll preRule s15
    let s17 := rwAll codeRule s16
    let s18 := rwAll stripTagRule s17
    let s19 := rwAll tripleNlRule s18
    let s20 := rwAll spaceTabRule s19
    ⟨trimL s20⟩

/-! ## `extract_excerpt` from `cleaner/html_to_markdown.py` -/

/-- The character class of `re.sub(r'[*_`#>\-\[\]()]', '', content)`. -/
def excerptFmtChars : Chars := "*_`#>-[]()".data

/-- The normalization part of `extract_excerpt`: strip the formatting
characters, collapse whitespace runs to single spaces, strip. -/
def excerptNorm (s : String) : String :=
  ⟨trimL (collapseWsAux false (s.data.filter (fun c => !excerptFmtChars.contains c)))⟩

/-- Python `l.rfind(' ')`: the highest index holding a space, `-1` if none. -/
def rfindSpace (l : Chars) : Int :=
  match l.reverse.findIdx? (fun c => c == ' ') with
  | some j => (l.length : Int) - 1 - j
  | none => -1

/-- `extract_excerpt(content, max_length)` from `html_to_markdown.py`.
The float comparison `last_space > max_length * 0.8` is modelled by the
exact rational inequality `5 * last_space > 4 * max_length`; for the
default `max_length = 200` the float product is exactly `160.0`, so the
two coincide. -/
def extract_excerpt (content : String) (max_length : Nat) : String :=
  if content = "" then ""
  else
    let excerpt := excerptNorm content
    if excerpt.data.length ≤ max_length then excerpt
    else
      let truncated := excerpt.data.take max_length
      let last_space := rfindSpace truncated
      let truncated2 :=
        if 4 * (max_length : Int) < 5 * last_space then truncated.take last_space.toNat
        else truncated
      ⟨truncated2 ++ "...".data⟩

/-- C6 witness: 250 letters with no space at all. -/
def c6s1 : String := ⟨List.replicate 250 'a'⟩

/-- C6 witness: 210 characters whose only space sits at index 190. -/
def c6s2 : String := ⟨List.replicate 190 'a' ++ [' '] ++ List.replicate 19 'b'⟩

/-! ### Concrete inputs used by the header claims -/

/-- C7 witness: a value containing a double quote and no single quote. -/
def c7dq : String := "he said \"hi\""

/-- C7 witness: a value containing a single quote and no double quote. -/
def c7sq : String := "it" ++ sqStr ++ "s fine"

/-- C7 witness: a value containing neither kind of quote. -/
def c7plain : String := "plain text"

/-! ### Branch equations for `dedupStep` -/

theorem dictLookup_cons (k : String) (v : Post) (m : List (String × Post)) (k' : String) :
    dictLookup ((k, v) :: m) k' = if k' = k then some v else dictLookup m k' := rfl

theorem dedupStep_eq_content (st : DedupState) (r : Post) (o : Post)
    (hc : dictLookup st.seen_hashes (create_content_hash r) = some o) :
    dedupStep st r = { st with duplicates := st.duplicates ++ [contentDupEntry o r] } := by
  simp [dedupStep, hc]

theorem dedupStep_eq_keptNewer (st : DedupState) (r : Post) (o : Post)
    (hc : dictLookup st.seen_hashes (create_content_hash r) = none)
    (ht : titleKey r ≠ "")
    (htl : dictLookup st.seen_titles (titleKey r) = some o)
    (hd : pyStrLt o.date r.date = true) :
    dedupStep st r =
      { seen_hashes := (create_content_hash r, r) :: st.seen_hashes
        seen_titles := (titleKey r, r) :: st.seen_titles
        duplicates := st.duplicates ++ [titleDupEntry DupAction.kept_newer o r]
        unique_posts :=
          (st.unique_posts.filter (fun p => decide (p.id ≠ o.id))) ++ [r] } := by
  simp [dedupStep, hc, ht, htl, hd]

theorem dedupStep_eq_keptOlder (st : DedupState) (r : Post) (o : Post)
    (hc : dictLookup st.seen_hashes (create_content_hash r) = none)
    (ht : titleKey r ≠ "")
    (htl : dictLookup st.seen_titles (titleKey r) = some o)
    (hd : pyStrLt o.date r.date = false) :
    dedupStep st r =
      { st with duplicates := st.duplicates ++ [titleDupEntry DupAction.kept_older o r] } := by
  simp [dedupStep, hc, ht, htl, hd]

theorem dedupStep_eq_accept (st : DedupState) (r : Post)
    (hc : dictLookup st.seen_hashes (create_content_hash r) = none)
    (ht : titleKey r = "" ∨ dictLookup st.seen_titles (titleKey r) = none) :
    dedupStep st r =
      { seen_hashes := (create_content_hash r, r) :: st.seen_hashes
        seen_titles := if titleKey r = "" then st.seen_titles
                       else (titleKey r, r) :: st.seen_titles
        duplicates := st.duplicates
        unique_posts := st.unique_posts ++ [r] } := by
  rcases ht with ht | ht
  · simp [dedupStep, hc, ht]
  · by_cases ht' : titleKey r = ""
    · simp [dedupStep, hc, ht']
    · simp [dedupStep, hc, ht', ht]

/-! ### The loop invariant of `find_duplicates`

Four facts hold for the loop state at every point:
every surviving unique post has its content hash registered in
`seen_hashes`; every surviving unique post with a non-empty title key is
tracked in `seen_titles` by a post with the same id; the surviving unique
posts have pairwise distinct content hashes; and they have pairwise
distinct non-empty title keys. -/

def DedupInv (st : DedupState) : Prop :=
  (∀ p ∈ st.unique_posts,
      (dictLookup st.seen_hashes (create_content_hash p)).isSome = true) ∧
  (∀ p ∈ st.unique_posts, titleKey p ≠ "" →
      ∃ q, dictLookup st.seen_titles (titleKey p) = some q ∧ q.id = p.id) ∧
  st.unique_posts.Pairwise
    (fun p q => create_content_hash p ≠ create_content_hash q) ∧
  st.unique_posts.Pairwise
    (fun p q => titleKey p = "" ∨ titleKey q = "" ∨ titleKey p ≠ titleKey q)

theorem dedupInv_init : DedupInv dedupInit := by
  refine ⟨?_, ?_, ?_, ?_⟩ <;> simp [dedupInit]

theorem dedupInv_step (st : DedupState) (r : Post) (h : DedupInv st) :
    DedupInv (dedupStep st r) := by
  obtain ⟨hHR, hTR, hHD, hTD⟩ := h
  rcases hc : dictLookup st.seen_hashes (create_content_hash r) with _ | o
  · -- no content-hash collision
    by_cases ht : titleKey r = ""
    · -- accepted as unique, empty title key
      rw [dedupStep_eq_accept st r hc (Or.inl ht)]
      refine ⟨?_, ?_, ?_, ?_⟩
      · intro p hp
        rcases List.mem_append.1 hp with hp | hp
        · rw [dictLookup_cons]
          split
          · simp
          · exact hHR p hp
        · rcases List.mem_singleton.1 hp with rfl
          rw [dictLookup_cons, if_pos rfl]
          simp
      · intro p hp hpt
        rcases List.mem_append.1 hp with hp | hp
        · simp only [if_pos ht]
          exact hTR p hp hpt
        · rcases List.mem_singleton.1 hp with rfl
          exact absurd ht hpt
      · rw [List.pairwise_append]
        refine ⟨hHD, List.pairwise_singleton _ _, ?_⟩
        intro p hp q hq
        rcases List.mem_singleton.1 hq with rfl
        intro heq
        have := hHR p hp
        rw [heq, hc] at this
        simp at this
      · rw [List.pairwise_append]
        refine ⟨hTD, List.pairwise_singleton _ _, ?_⟩
        intro p hp q hq
        rcases List.mem_singleton.1 hq with rfl
        exact Or.inr (Or.inl ht)
    · rcases htl : dictLookup st.seen_titles (titleKey r) with _ | o
      · -- accepted as unique, fresh non-empty title key
        rw [dedupStep_eq_accept st r hc (Or.inr htl)]
        refine ⟨?_, ?_, ?_, ?_⟩
        · intro p hp
          rcases List.mem_append.1 hp with hp | hp
          · rw [dictLookup_cons]
            split
            · simp
            · exact hHR p hp
          · rcases List.mem_singleton.1 hp with rfl
            rw [dictLookup_cons, if_pos rfl]
            simp
        · intro p hp hpt
          simp only [if_neg ht]
          rcases List.mem_append.1 hp with hp | hp
          · have hne : titleKey p ≠ titleKey r := by
              intro heq
              obtain ⟨q, hq, -⟩ := hTR p hp hpt
              rw [heq, htl] at hq
              exact Option.noConfusion hq
            rw [dictLookup_cons, if_neg hne]
            exact hTR p hp hpt
          · rcases List.mem_singleton.1 hp with rfl
            exact ⟨p, by rw [dictLookup_cons, if_pos rfl], rfl⟩
        · rw [List.pairwise_append]
          refine ⟨hHD, List.pairwise_singleton _ _, ?_⟩
          intro p hp q hq
          rcases List.mem_singleton.1 hq with rfl
          intro heq
          have := hHR p hp
          rw [heq, hc] at this
          simp at this
        · rw [List.pairwise_append]
          refine ⟨hTD, List.pairwise_singleton _ _, ?_⟩
          intro p hp q hq
          rcases List.mem_singleton.1 hq with rfl
          by_cases hpt : titleKey p = ""
          · exact Or.inl hpt
          · refine Or.inr (Or.inr ?_)
            intro heq
            obtain ⟨q, hq, -⟩ := hTR p hp hpt
            rw [heq, htl] at hq
            exact Option.noConfusion hq
      · -- title collision with surviving post `o`
        rcases hd : pyStrLt o.date r.date with _ | _
        · -- kept_older: only the ledger changes
          rw [dedupStep_eq_keptOlder st r o hc ht htl hd]
          exact ⟨hHR, hTR, hHD, hTD⟩
        · -- kept_newer: `r` replaces `o`
          rw [dedupStep_eq_keptNewer st r o hc ht htl hd]
          refine ⟨?_, ?_, ?_, ?_⟩
          · intro p hp
            rcases List.mem_append.1 hp with hp | hp
            · have hp' := (List.mem_filter.1 hp).1
              rw [dictLookup_cons]
              split
              · simp
              · exact hHR p hp'
            · rcases List.mem_singleton.1 hp with rfl
              rw [dictLookup_cons, if_pos rfl]
              simp
          · intro p hp hpt
            rcases List.mem_append.1 hp with hp | hp
            · obtain ⟨hp', hpid⟩ := List.mem_filter.1 hp
              rw [decide_eq_true_eq] at hpid
              have hne : titleKey p ≠ titleKey r := by
                intro heq
                obtain ⟨q, hq, hqid⟩ := hTR p hp' hpt
                rw [heq, htl] at hq
                rcases Option.some.injEq .. ▸ hq with rfl
                rw [Option.some_inj] at hq
                exact hpid (hq ▸ hqid ▸ rfl)
              rw [dictLookup_cons, if_neg hne]
              exact hTR p hp' hpt
            · rcases List.mem_singleton.1 hp with rfl
              exact ⟨p, by rw [dictLookup_cons, if_pos rfl], rfl⟩
          · rw [List.pairwise_append]
            refine ⟨hHD.sublist (List.filter_sublist _), List.pairwise_singleton _ _, ?_⟩
            intro p hp q hq
            rcases List.mem_singleton.1 hq with rfl
            have hp' := (List.mem_filter.1 hp).1
            intro heq
            have := hHR p hp'
            rw [heq, hc] at this
            simp at this
          · rw [List.pairwise_append]
            refine ⟨hTD.sublist (List.filter_sublist _), List.pairwise_singleton _ _, ?_⟩
            intro p hp q hq
            rcases List.mem_singleton.1 hq with rfl
            obtain ⟨hp', hpid⟩ := List.mem_filter.1 hp
            rw [decide_eq_true_eq] at hpid
            by_cases hpt : titleKey p = ""
            · exact Or.inl hpt
            · refine Or.inr (Or.inr ?_)
              intro heq
              obtain ⟨q, hq, hqid⟩ := hTR p hp' hpt
              rw [heq, htl, Option.some_inj] at hq
              exact hpid (hq ▸ hqid ▸ rfl)
  · -- content duplicate: only the ledger changes
    rw [dedupStep_eq_content st r o hc]
    exact ⟨hHR, hTR, hHD, hTD⟩

theorem dedupInv_foldl (posts : List Post) :
    ∀ st : DedupState, DedupInv st → DedupInv (posts.foldl dedupStep st) := by
  induction posts with
  | nil => intro st h; exact h
  | cons a u ih =>
    intro st h
    exact ih (dedupStep st a) (dedupInv_step st a h)

/-- Running the loop over a list of posts whose content hashes are fresh and
pairwise distinct and whose non-empty title keys are fresh and pairwise
distinct accepts every post and records no duplicate. -/
theorem dedup_foldl_fresh (u : List Post) :
    ∀ st : DedupState,
      (∀ p ∈ u, dictLookup st.seen_hashes (create_content_hash p) = none) →
      (∀ p ∈ u, titleKey p ≠ "" → dictLookup st.seen_titles (titleKey p) = none) →
      u.Pairwise (fun p q => create_content_hash p ≠ create_content_hash q) →
      u.Pairwise (fun p q => titleKey p = "" ∨ titleKey q = "" ∨ titleKey p ≠ titleKey q) →
      (u.foldl (fun st p => dedupStep st p) st).unique_posts = st.unique_posts ++ u ∧
      (u.foldl (fun st p => dedupStep st p) st).duplicates = st.duplicates := by
  induction u with
  | nil => intro st _ _ _ _; simp
  | cons a u ih =>
    intro st hfreshH hfreshT hpwH hpwT
    have hca : dictLookup st.seen_hashes (create_content_hash a) = none :=
      hfreshH a (List.mem_cons_self a u)
    have hta : titleKey a = "" ∨ dictLookup st.seen_titles (titleKey a) = none := by
      by_cases h : titleKey a = ""
      · exact Or.inl h
      · exact Or.inr (hfreshT a (List.mem_cons_self a u) h)
    have hstep := dedupStep_eq_accept st a hca hta
    rw [List.foldl_cons, hstep]
    obtain ⟨hpwHa, hpwH'⟩ := List.pairwise_cons.1 hpwH
    obtain ⟨hpwTa, hpwT'⟩ := List.pairwise_cons.1 hpwT
    have := ih
      { seen_hashes := (create_content_hash a, a) :: st.seen_hashes
        seen_titles := if titleKey a = "" then st.seen_titles
                       else (titleKey a, a) :: st.seen_titles
        duplicates := st.duplicates
        unique_posts := st.unique_posts ++ [a] }
      (by
        intro p hp
        rw [dictLookup_cons, if_neg (fun heq => hpwHa p hp heq.symm)]
        exact hfreshH p (List.mem_cons_of_mem a hp))
      (by
        intro p hp hpt
        by_cases h : titleKey a = ""
        · simp only [if_pos h]
          exact hfreshT p (List.mem_cons_of_mem a hp) hpt
        · simp only [if_neg h]
          have hne : titleKey p ≠ titleKey a := by
            rcases hpwTa p hp with h' | h' | h'
            · exact absurd h' h
            · exact absurd h' hpt
            · exact fun heq => h' heq.symm
          rw [dictLookup_cons, if_neg hne]
          exact hfreshT p (List.mem_cons_of_mem a hp) hpt)
      hpwH' hpwT'
    obtain ⟨h1, h2⟩ := this
    constructor
    · rw [h1]; simp
    · rw [h2]

/-- C3: `find_duplicates` is idempotent on its own unique output: a second
run returns the same list of unique posts and an empty duplicates ledger. -/
theorem c3_dedup_idempotent (posts : List Post) :
    find_duplicates ((find_duplicates posts).1) = ((find_duplicates posts).1, []) := by
  obtain ⟨-, -, hHD, hTD⟩ := dedupInv_foldl posts dedupInit dedupInv_init
  have h := dedup_foldl_fresh ((posts.foldl dedupStep dedupInit).unique_posts) dedupInit
    (by intro p _; rfl) (by intro p _ _; rfl) hHD hTD
  obtain ⟨h1, h2⟩ := h
  show ((((find_duplicates posts).1).foldl dedupStep dedupInit).unique_posts,
        (((find_duplicates posts).1).foldl dedupStep dedupInit).duplicates) = _
  have hfd : (find_duplicates posts).1 = (posts.foldl dedupStep dedupInit).unique_posts := rfl
  rw [hfd]
  refine Prod.ext ?_ ?_
  · simpa using h1
  · simpa using h2

/-- C4: whenever a record's content fingerprint equals that of a post
surviving in the unique list, the step records one CONTENT_DUPLICATE ledger
entry for the record and leaves the unique list and both lookup tables
unchanged, regardless of either record's date. -/
theorem c4_content_dup_no_replace (posts : List Post) (r : Post)
    (h : ∃ s ∈ (find_duplicates posts).1,
           create_content_hash s = create_content_hash r) :
    (dedupStep (posts.foldl dedupStep dedupInit) r).unique_posts =
        (posts.foldl dedupStep dedupInit).unique_posts ∧
    (dedupStep (posts.foldl dedupStep dedupInit) r).seen_hashes =
        (posts.foldl dedupStep dedupInit).seen_hashes ∧
    (dedupStep (posts.foldl dedupStep dedupInit) r).seen_titles =
        (posts.foldl dedupStep dedupInit).seen_titles ∧
    ∃ e : DupEntry, e.type = DupType.content_duplicate ∧ e.duplicate_id = r.id ∧
      (dedupStep (posts.foldl dedupStep dedupInit) r).duplicates =
        (posts.foldl dedupStep dedupInit).duplicates ++ [e] := by
  obtain ⟨hHR, -, -, -⟩ := dedupInv_foldl posts dedupInit dedupInv_init
  obtain ⟨s, hs, hsr⟩ := h
  have hsome := hHR s hs
  rw [hsr] at hsome
  obtain ⟨o, ho⟩ := Option.isSome_iff_exists.1 hsome
  rw [dedupStep_eq_content _ r o ho]
  exact ⟨rfl, rfl, rfl, contentDupEntry o r, rfl, rfl, rfl⟩

theorem c4_content_dup_no_replace_witness :
    (∃ s ∈ (find_duplicates [c4P]).1,
       create_content_hash s = create_content_hash c4R) ∧
    ((dedupStep ([c4P].foldl dedupStep dedupInit) c4R).unique_posts =
        ([c4P].foldl dedupStep dedupInit).unique_posts ∧
     (dedupStep ([c4P].foldl dedupStep dedupInit) c4R).seen_hashes =
        ([c4P].foldl dedupStep dedupInit).seen_hashes ∧
     (dedupStep ([c4P].foldl dedupStep dedupInit) c4R).seen_titles =
        ([c4P].foldl dedupStep dedupInit).seen_titles ∧
     ∃ e : DupEntry, e.type = DupType.content_duplicate ∧ e.duplicate_id = c4R.id ∧
       (dedupStep ([c4P].foldl dedupStep dedupInit) c4R).duplicates =
         ([c4P].foldl dedupStep dedupInit).duplicates ++ [e]) :=
  ⟨by decide, c4_content_dup_no_replace [c4P] c4R (by decide)⟩

/-- C1, counterexample: for the input order `[B, A]` the single ledger entry
produced by `find_duplicates` carries action `kept_older`, not `kept_newer`
as the claim states (the newer record B does survive, but the recorded
action labels the decision "kept the original"). -/
theorem c1_counterexample :
    (find_duplicates [c1B, c1A]).2.map DupEntry.action = [some DupAction.kept_older] ∧
    ¬ ∃ e ∈ (find_duplicates [c1B, c1A]).2, e.action = some DupAction.kept_newer := by
  constructor
  · rfl
  · decide

/-- C1, amended: `find_duplicates [A, B]` yields unique `[B]` and exactly one
TITLE_DUPLICATE entry with action `kept_newer`; `find_duplicates [B, A]`
yields the same final unique set `[B]` and exactly one TITLE_DUPLICATE
entry, whose action however is `kept_older`. -/
theorem c1_title_tiebreak :
    find_duplicates [c1A, c1B] =
      ([c1B],
       [{ type := DupType.title_duplicate, original_id := some 1,
          original_date := "2020-01-01", duplicate_id := some 2,
          duplicate_date := "2020-06-01", title := "x",
          action := some DupAction.kept_newer }]) ∧
    find_duplicates [c1B, c1A] =
      ([c1B],
       [{ type := DupType.title_duplicate, original_id := some 2,
          original_date := "2020-06-01", duplicate_id := some 1,
          duplicate_date := "2020-01-01", title := "x",
          action := some DupAction.kept_older }]) := by
  exact ⟨rfl, rfl⟩

/-- C9: a KEPT_NEWER replacement filters the unique list by the old
survivor's id, so it removes every accepted record with that id.  Here
`c9P1` and `c9P2` (distinct titles and contents, same id 1) are both
accepted; when `c9P3` replaces `c9P1`, both id-1 records disappear and the
unique output is `[c9P3]` alone. -/
theorem c9_replacement_removes_all_same_id :
    find_duplicates [c9P1, c9P2, c9P3] =
      ([c9P3],
       [{ type := DupType.title_duplicate, original_id := some 1,
          original_date := "2020-01-01", duplicate_id := some 2,
          duplicate_date := "2020-02-01", title := "a",
          action := some DupAction.kept_newer }]) ∧
    c9P1 ∉ (find_duplicates [c9P1, c9P2, c9P3]).1 ∧
    c9P2 ∉ (find_duplicates [c9P1, c9P2, c9P3]).1 := by
  refine ⟨rfl, ?_, ?_⟩ <;> decide

/-! ### Header claims -/

/-- C7: for every value that is non-empty before and after unescaping and
trimming, `sanitize_yaml_string` follows the three-way quoting rule: a
value with a double quote and no single quote is wrapped in single quotes
unescaped; a value with a single quote and no double quote is wrapped in
double quotes unescaped; otherwise (both kinds or neither) it is wrapped
in double quotes with internal backslashes and double quotes escaped. -/
theorem c7_quoting_rule (text : String) (h0 : text ≠ "")
    (_h1 : pyStrip (html_unescape text) ≠ "") :
    (hasChar (pyStrip (html_unescape text)) '"' = true ∧
        hasChar (pyStrip (html_unescape text)) sqChar = false →
      sanitize_yaml_string text = sqStr ++ pyStrip (html_unescape text) ++ sqStr) ∧
    (hasChar (pyStrip (html_unescape text)) sqChar = true ∧
        hasChar (pyStrip (html_unescape text)) '"' = false →
      sanitize_yaml_string text = "\"" ++ pyStrip (html_unescape text) ++ "\"") ∧
    (hasChar (pyStrip (html_unescape text)) '"' =
        hasChar (pyStrip (html_unescape text)) sqChar →
      sanitize_yaml_string text =
        "\"" ++ escapeBackslashesQuotes (pyStrip (html_unescape text)) ++ "\"") := by
  refine ⟨?_, ?_, ?_⟩
  · rintro ⟨hd, hs⟩
    simp [sanitize_yaml_string, h0, hd, hs]
  · rintro ⟨hs, hd⟩
    simp [sanitize_yaml_string, h0, hd, hs]
  · intro hiff
    rcases hd : hasChar (pyStrip (html_unescape text)) '"' with _ | _ <;>
      rw [hd] at hiff <;>
      simp [sanitize_yaml_string, h0, hd, hiff.symm]

theorem c7_quoting_rule_witness :
    (sanitize_yaml_string c7dq =
      sqStr ++ pyStrip (html_unescape c7dq) ++ sqStr) ∧
    (sanitize_yaml_string c7sq =
      "\"" ++ pyStrip (html_unescape c7sq) ++ "\"") ∧
    (sanitize_yaml_string c7plain =
      "\"" ++ escapeBackslashesQuotes (pyStrip (html_unescape c7plain)) ++ "\"") :=
  ⟨(c7_quoting_rule c7dq (by decide) (by decide)).1 ⟨by decide, by decide⟩,
   (c7_quoting_rule c7sq (by decide) (by decide)).2.1 ⟨by decide, by decide⟩,
   (c7_quoting_rule c7plain (by decide) (by decide)).2.2 (by decide)⟩

/-! ### Validation of the fallback front matter

The fallback interpolates `date` and `post_type` raw.  The following
lemmas compute `validate_yaml_front_matter` on the fallback text for any
pair of `cleanHeaderValue` values: the `---` split isolates the middle
block, trimming exposes the six `key: value` lines, and every line passes
the quote-balance checks. -/

theorem splitOnAux_ne_nil (sep : Chars) (fuel : Nat) (l : Chars) :
    splitOnAux sep fuel l ≠ [] := by
  rcases l with _ | ⟨c, rest⟩
  · simp [splitOnAux]
  · rcases fuel with _ | f
    · simp [splitOnAux]
    · simp only [splitOnAux]
      split
      · simp
      · split <;> simp

theorem splitOnAux_fuel_eq (sep : Chars) (hsep : sep ≠ []) :
    ∀ (fuel : Nat) (l : Chars) (fuel' : Nat), l.length ≤ fuel → l.length ≤ fuel' →
      splitOnAux sep fuel l = splitOnAux sep fuel' l := by
  intro fuel
  induction fuel with
  | zero =>
    intro l fuel' h _
    have hl : l = [] := List.length_eq_zero.mp (Nat.le_zero.mp h)
    subst hl
    simp [splitOnAux]
  | succ f ih =>
    intro l fuel' h h'
    rcases l with _ | ⟨c, rest⟩
    · simp [splitOnAux]
    · rcases fuel' with _ | f'
      · simp at h'
      · have hseplen : 1 ≤ sep.length := by
          rcases sep with _ | ⟨s, sep'⟩
          · exact absurd rfl hsep
          · simp
        simp only [splitOnAux]
        by_cases hp : sep.isPrefixOf (c :: rest) = true
        · rw [if_pos hp, if_pos hp]
          have hd : ((c :: rest).drop sep.length).length ≤ f := by
            rw [List.length_drop]
            simp only [List.length_cons] at h ⊢
            omega
          have hd' : ((c :: rest).drop sep.length).length ≤ f' := by
            rw [List.length_drop]
            simp only [List.length_cons] at h' ⊢
            omega
          rw [ih _ _ hd hd']
        · rw [if_neg hp, if_neg hp]
          have hr : rest.length ≤ f := by
            simp only [List.length_cons] at h
            omega
          have hr' : rest.length ≤ f' := by
            simp only [List.length_cons] at h'
            omega
          rw [ih _ _ hr hr']

theorem splitOnL_no_seq (sep : Chars) :
    ∀ l : Chars, hasSeq sep l = false → splitOnL sep l = [l] := by
  intro l
  induction l with
  | nil => intro _; rfl
  | cons c rest ih =>
    intro h
    rw [hasSeq, Bool.or_eq_false_iff] at h
    show splitOnAux sep (c :: rest).length (c :: rest) = [c :: rest]
    rw [List.length_cons]
    simp only [splitOnAux]
    rw [if_neg (by simp [h.1]),
        show splitOnAux sep rest.length rest = [rest] from ih h.2]

theorem splitOnL_cons_sep (sep : Chars) (hsep : sep ≠ []) (B : Chars) :
    splitOnL sep (sep ++ B) = [] :: splitOnL sep B := by
  rcases hs : sep with _ | ⟨s, sep'⟩
  · exact absurd hs hsep
  · show splitOnAux (s :: sep') ((s :: sep') ++ B).length ((s :: sep') ++ B) = _
    have hpre : (s :: sep').isPrefixOf (s :: (sep' ++ B)) = true := by
      rw [show s :: (sep' ++ B) = (s :: sep') ++ B from rfl, List.isPrefixOf_iff_prefix]
      exact List.prefix_append _ _
    have hdrop : (s :: (sep' ++ B)).drop (s :: sep').length = B := by
      rw [show s :: (sep' ++ B) = (s :: sep') ++ B from rfl]
      exact List.drop_left _ _
    have hlen : ((s :: sep') ++ B).length = (sep'.length + B.length) + 1 := by
      simp [List.length_append]
    rw [hlen, show (s :: sep') ++ B = s :: (sep' ++ B) from rfl]
    simp only [splitOnAux]
    rw [if_pos hpre, hdrop]
    show _ = [] :: splitOnAux (s :: sep') B.length B
    congr 1
    exact splitOnAux_fuel_eq (s :: sep') (by simp) _ B _
      (by omega) (le_refl _)

theorem splitOnL_skip (B : Chars) :
    ∀ A : Chars,
      (∀ s : Chars, s <:+ A → s ≠ [] → dash3.isPrefixOf (s ++ B) = false) →
      splitOnL dash3 (A ++ B) = consHead A (splitOnL dash3 B) := by
  intro A
  induction A with
  | nil =>
    intro _
    rw [List.nil_append]
    rcases hB : splitOnL dash3 B with _ | ⟨h, t⟩
    · exact absurd hB (splitOnAux_ne_nil _ _ _)
    · simp [consHead]
  | cons c A' ih =>
    intro hcond
    show splitOnAux dash3 ((c :: A') ++ B).length ((c :: A') ++ B) = _
    have hlen : ((c :: A') ++ B).length = (A' ++ B).length + 1 := by
      simp
    rw [hlen, show (c :: A') ++ B = c :: (A' ++ B) from rfl]
    simp only [splitOnAux]
    rw [if_neg (by
      have hx := hcond (c :: A') (List.suffix_refl _) (List.cons_ne_nil c A')
      rw [show (c :: A') ++ B = c :: (A' ++ B) from rfl] at hx
      simp [hx])]
    have hih := ih (fun s hs hne => hcond s (hs.trans (List.suffix_cons c A')) hne)
    rw [show splitOnAux dash3 (A' ++ B).length (A' ++ B) = consHead A' (splitOnL dash3 B)
         from hih]
    rcases hB : splitOnL dash3 B with _ | ⟨h, t⟩
    · exact absurd hB (splitOnAux_ne_nil _ _ _)
    · simp [consHead]

theorem suffix_append_split {s X Y : Chars} (h : s <:+ X ++ Y) :
    s <:+ Y ∨ ∃ s' : Chars, s' <:+ X ∧ s' ≠ [] ∧ s = s' ++ Y := by
  obtain ⟨t, ht⟩ := h
  have hdropt : (X ++ Y).drop t.length = s := by
    rw [← ht]
    exact List.drop_left t s
  by_cases hl : X.length ≤ t.length
  · left
    have h2 : (X ++ Y).drop t.length = Y.drop (t.length - X.length) := by
      calc (X ++ Y).drop t.length
          = (X ++ Y).drop (X.length + (t.length - X.length)) := by
            rw [show X.length + (t.length - X.length) = t.length from by omega]
        _ = Y.drop (t.length - X.length) := List.drop_append _
    rw [← hdropt, h2]
    exact List.drop_suffix _ _
  · right
    push_neg at hl
    refine ⟨X.drop t.length, List.drop_suffix _ _, ?_, ?_⟩
    · intro hemp
      have := congrArg List.length hemp
      rw [List.length_drop] at this
      simp at this
      omega
    · rw [← hdropt, List.drop_append_of_le_length (le_of_lt hl)]

theorem hasSeq_of_suffix {sep l s : Chars} (hsep : sep ≠ [])
    (hs : s <:+ l) (hp : sep.isPrefixOf s = true) :
    hasSeq sep l = true := by
  induction l with
  | nil =>
    have hnil : s = [] := List.suffix_nil.mp hs
    subst hnil
    rcases sep with _ | _
    · exact absurd rfl hsep
    · simp [List.isPrefixOf] at hp
  | cons c rest ih =>
    rcases List.suffix_cons_iff.mp hs with h | h
    · subst h
      simp [hasSeq, hp]
    · simp [hasSeq, ih h]

theorem dash3_not_prefix_head {c : Char} (hc : c ≠ '-') (l : Chars) :
    dash3.isPrefixOf (c :: l) = false := by
  have hbeq : ('-' == c) = false := beq_eq_false_iff_ne.mpr (Ne.symm hc)
  simp [dash3, List.isPrefixOf, hbeq]

theorem dash3_not_prefix_after {D : Chars} (hD : hasSeq dash3 D = false)
    {s' : Chars} (hs : s' <:+ D) (hne : s' ≠ []) (rest : Chars) :
    dash3.isPrefixOf (s' ++ '"' :: rest) = false := by
  rcases s' with _ | ⟨a, s1⟩
  · exact absurd rfl hne
  rcases s1 with _ | ⟨b, s2⟩
  · simp [dash3, List.isPrefixOf]
  rcases s2 with _ | ⟨c, s3⟩
  · simp [dash3, List.isPrefixOf]
  · by_cases habc : a = '-' ∧ b = '-' ∧ c = '-'
    · exfalso
      obtain ⟨ha, hb, hc⟩ := habc
      subst ha; subst hb; subst hc
      have hpre : dash3.isPrefixOf ('-' :: '-' :: '-' :: s3) = true := by
        simp [dash3, List.isPrefixOf]
      rw [hasSeq_of_suffix (by simp [dash3]) hs hpre] at hD
      exact Bool.noConfusion hD
    · simp only [List.cons_append]
      simp [dash3, List.isPrefixOf]
      intro h1 h2 h3
      exact habc ⟨h1.symm, h2.symm, h3.symm⟩

theorem hasSeq_single {c : Char} : ∀ l : Chars, c ∉ l → hasSeq [c] l = false := by
  intro l
  induction l with
  | nil => intro _; rfl
  | cons a rest ih =>
    intro h
    have ha : (c == a) = false :=
      beq_eq_false_iff_ne.mpr (fun heq => h (heq ▸ List.mem_cons_self a rest))
    simp [hasSeq, List.isPrefixOf, ha]
    exact ih (fun hm => h (List.mem_cons_of_mem a hm))

theorem splitNl_append (ys : Chars) :
    ∀ l : Chars, '\n' ∉ l →
      splitOnL ['\n'] (l ++ '\n' :: ys) = l :: splitOnL ['\n'] ys := by
  intro l
  induction l with
  | nil =>
    intro _
    show splitOnAux ['\n'] ('\n' :: ys).length ('\n' :: ys) = [] :: splitOnL ['\n'] ys
    rw [List.length_cons]
    simp only [splitOnAux]
    rw [if_pos (by simp [List.isPrefixOf])]
    rfl
  | cons c l' ih =>
    intro h
    have hc : ('\n' == c) = false :=
      beq_eq_false_iff_ne.mpr (fun heq => h (heq ▸ List.mem_cons_self c l'))
    show splitOnAux ['\n'] ((c :: l') ++ '\n' :: ys).length ((c :: l') ++ '\n' :: ys) = _
    have hlen : ((c :: l') ++ '\n' :: ys).length = (l' ++ '\n' :: ys).length + 1 := by
      simp
    rw [hlen, show (c :: l') ++ '\n' :: ys = c :: (l' ++ '\n' :: ys) from rfl]
    simp only [splitOnAux]
    rw [if_neg (by simp [List.isPrefixOf, hc])]
    rw [show splitOnAux ['\n'] (l' ++ '\n' :: ys).length (l' ++ '\n' :: ys)
          = l' :: splitOnL ['\n'] ys
        from ih (fun hm => h (List.mem_cons_of_mem c hm))]

theorem splitNl_no (l : Chars) (h : '\n' ∉ l) : splitOnL ['\n'] l = [l] :=
  splitOnL_no_seq ['\n'] l (hasSeq_single l h)

theorem dropWhile_ws_cons_nonws {c : Char} (hc : c.isWhitespace = false) (l : Chars) :
    (c :: l).dropWhile Char.isWhitespace = c :: l := by
  simp [List.dropWhile, hc]

theorem trimL_eq_self_of {l : Chars} {c c' : Char}
    (h1 : l.head? = some c) (hc : c.isWhitespace = false)
    (h2 : l.getLast? = some c') (hc' : c'.isWhitespace = false) :
    trimL l = l := by
  rcases l with _ | ⟨a, tl⟩
  · simp at h1
  · have ha : a.isWhitespace = false := by
      have hac : a = c := by simpa using h1
      rw [hac]
      exact hc
    unfold trimL
    rw [dropWhile_ws_cons_nonws ha]
    rcases hrev : (a :: tl).reverse with _ | ⟨b, tr⟩
    · exact absurd hrev (by simp)
    · have hb : b.isWhitespace = false := by
        have hh := List.head?_reverse (a :: tl)
        rw [hrev, h2] at hh
        have hbc : b = c' := by simpa using hh
        rw [hbc]
        exact hc'
      rw [dropWhile_ws_cons_nonws hb, ← hrev, List.reverse_reverse]

theorem trimL_nl_wrap {X : Chars} {c c' : Char}
    (h1 : X.head? = some c) (hc : c.isWhitespace = false)
    (h2 : X.getLast? = some c') (hc' : c'.isWhitespace = false) :
    trimL ('\n' :: (X ++ ['\n'])) = X := by
  rcases X with _ | ⟨a, tl⟩
  · simp at h1
  · have ha : a.isWhitespace = false := by
      have hac : a = c := by simpa using h1
      rw [hac]
      exact hc
    unfold trimL
    have s1 : List.dropWhile Char.isWhitespace ('\n' :: ((a :: tl) ++ ['\n']))
        = (a :: tl) ++ ['\n'] := by
      rw [show '\n' :: ((a :: tl) ++ ['\n']) = '\n' :: (a :: (tl ++ ['\n'])) from rfl]
      simp [List.dropWhile, ha]
    rw [s1, show ((a :: tl) ++ ['\n']).reverse = '\n' :: (a :: tl).reverse from by simp]
    rw [show List.dropWhile Char.isWhitespace ('\n' :: (a :: tl).reverse)
          = List.dropWhile Char.isWhitespace ((a :: tl).reverse) from by
      simp [List.dropWhile]]
    rcases hrev : (a :: tl).reverse with _ | ⟨b, tr⟩
    · exact absurd hrev (by simp)
    · have hb : b.isWhitespace = false := by
        have hh := List.head?_reverse (a :: tl)
        rw [hrev, h2] at hh
        have hbc : b = c' := by simpa using hh
        rw [hbc]
        exact hc'
      rw [dropWhile_ws_cons_nonws hb, ← hrev, List.reverse_reverse]

theorem checkLines_cons_pass (line : Chars) (rest : List Chars)
    (h1 : (trimL line).count '"' % 2 = 0) (h2 : (trimL line).count sqChar % 2 = 0) :
    checkLines (line :: rest) = checkLines rest := by
  simp only [checkLines]
  by_cases hcond : (!(trimL line).isEmpty && (trimL line).contains ':') = true
  · rw [if_pos hcond, if_neg (by simp [h1]), if_neg (by simp [h2])]
  · rw [if_neg hcond]

theorem hasChar_false_not_mem {s : String} {c : Char} (h : hasChar s c = false) :
    c ∉ s.data := by
  intro hm
  have h2 : s.data.contains c = true := by
    simp [List.contains_eq_any_beq]
    exact hm
  rw [show s.data.contains c = hasChar s c from rfl, h] at h2
  exact Bool.noConfusion h2

/-- For clean date and type values (no quotes of either kind, no newline,
no `---`) the fallback block passes the repository's validator. -/
theorem fallback_front_matter_valid (d t : String)
    (hd : cleanHeaderValue d = true) (ht : cleanHeaderValue t = true) :
    (validate_yaml_front_matter (fallback_front_matter d t)).1 = true := by
  rw [cleanHeaderValue, Bool.and_eq_true, Bool.and_eq_true, Bool.and_eq_true] at hd ht
  obtain ⟨⟨⟨hd1, hd2⟩, hd3⟩, hd4⟩ := hd
  obtain ⟨⟨⟨ht1, ht2⟩, ht3⟩, ht4⟩ := ht
  rw [Bool.not_eq_true'] at hd1 hd2 hd3 hd4 ht1 ht2 ht3 ht4
  have hdq : '"' ∉ d.data := hasChar_false_not_mem hd1
  have hdsq : sqChar ∉ d.data := hasChar_false_not_mem hd2
  have hdnl : '\n' ∉ d.data := hasChar_false_not_mem hd3
  have htq : '"' ∉ t.data := hasChar_false_not_mem ht1
  have htsq : sqChar ∉ t.data := hasChar_false_not_mem ht2
  have htnl : '\n' ∉ t.data := hasChar_false_not_mem ht3
  -- the raw characters of the fallback, grouped around the two markers
  have hdata : (fallback_front_matter d t).data
      = dash3 ++ (('\n' :: (fbBody d t ++ ['\n'])) ++ (dash3 ++ ['\n', '\n'])) := by
    show ("---\ntitle: \"Post Title\"\nsubtitle: \"\"\ncategory: \"uncategorized\"\ntags: []\ndate: \""
        ++ d ++ "\"\ntype: \"" ++ t ++ "\"\n---\n\n").data = _
    have e0 : ∀ a b : String, (a ++ b).data = a.data ++ b.data := fun _ _ => rfl
    simp only [e0]
    simp [fbBody, fbLine1, fbLine2, fbLine3, fbLine4, fbDatePre, fbTypePre, dash3,
          List.append_assoc]
  -- the middle block regrouped around the interpolated values
  have hA : '\n' :: (fbBody d t ++ ['\n'])
      = fbPre1 ++ (d.data ++ (fbMid2 ++ (t.data ++ fbEnd3))) := by
    simp [fbBody, fbPre1, fbMid2, fbEnd3, List.append_assoc]
  -- no suffix of the middle block starts a `---` occurrence
  have hskipcond : ∀ s : Chars, s <:+ ('\n' :: (fbBody d t ++ ['\n'])) → s ≠ [] →
      dash3.isPrefixOf (s ++ (dash3 ++ ['\n', '\n'])) = false := by
    intro s hs hne
    rw [hA] at hs
    rcases suffix_append_split hs with hs1 | ⟨s', hs', hne', heq⟩
    · rcases suffix_append_split hs1 with hs2 | ⟨s', hs', hne', heq⟩
      · rcases suffix_append_split hs2 with hs3 | ⟨s', hs', hne', heq⟩
        · rcases suffix_append_split hs3 with hs4 | ⟨s', hs', hne', heq⟩
          · -- s is a suffix of fbEnd3 = ['"', '\n']
            rcases List.suffix_cons_iff.mp hs4 with rfl | h4
            · exact dash3_not_prefix_head (by decide) _
            · rcases List.suffix_cons_iff.mp h4 with rfl | h5
              · exact dash3_not_prefix_head (by decide) _
              · exact absurd (List.suffix_nil.mp h5) hne
          · -- s = s' ++ fbEnd3 with s' a non-empty suffix of the type value
            subst heq
            rw [show (s' ++ fbEnd3) ++ (dash3 ++ ['\n', '\n'])
                  = s' ++ '"' :: ('\n' :: (dash3 ++ ['\n', '\n'])) from by simp [fbEnd3]]
            exact dash3_not_prefix_after ht4 hs' hne' _
        · -- s = s' ++ ... with s' a non-empty suffix of fbMid2 (dash-free)
          subst heq
          rcases s' with _ | ⟨a, s''⟩
          · exact absurd rfl hne'
          · have hmem : a ∈ fbMid2 :=
              (List.IsSuffix.sublist hs').subset (List.mem_cons_self a s'')
            have hnd : a ≠ '-' := by
              intro hEq
              rw [hEq] at hmem
              revert hmem
              decide
            rw [show ((a :: s'') ++ (t.data ++ fbEnd3)) ++ (dash3 ++ ['\n', '\n'])
                  = a :: ((s'' ++ (t.data ++ fbEnd3)) ++ (dash3 ++ ['\n', '\n'])) from by simp]
            exact dash3_not_prefix_head hnd _
      · -- s = s' ++ ... with s' a non-empty suffix of the date value
        subst heq
        rw [show (s' ++ (fbMid2 ++ (t.data ++ fbEnd3))) ++ (dash3 ++ ['\n', '\n'])
              = s' ++ '"' :: (('\n' :: fbTypePre) ++ ((t.data ++ fbEnd3) ++ (dash3 ++ ['\n', '\n'])))
            from by simp [fbMid2]]
        exact dash3_not_prefix_after hd4 hs' hne' _
    · -- s = s' ++ ... with s' a non-empty suffix of fbPre1 (dash-free)
      subst heq
      rcases s' with _ | ⟨a, s''⟩
      · exact absurd rfl hne'
      · have hmem : a ∈ fbPre1 :=
          (List.IsSuffix.sublist hs').subset (List.mem_cons_self a s'')
        have hnd : a ≠ '-' := by
          intro hEq
          rw [hEq] at hmem
          revert hmem
          decide
        rw [show ((a :: s'') ++ (d.data ++ (fbMid2 ++ (t.data ++ fbEnd3)))) ++ (dash3 ++ ['\n', '\n'])
              = a :: ((s'' ++ (d.data ++ (fbMid2 ++ (t.data ++ fbEnd3)))) ++ (dash3 ++ ['\n', '\n']))
            from by simp]
        exact dash3_not_prefix_head hnd _
  -- the `---` split isolates the middle block
  have hsplit : splitOnL dash3 (fallback_front_matter d t).data
      = [[], '\n' :: (fbBody d t ++ ['\n']), ['\n', '\n']] := by
    rw [hdata, splitOnL_cons_sep dash3 (by decide),
        splitOnL_skip _ _ hskipcond,
        splitOnL_cons_sep dash3 (by decide),
        splitOnL_no_seq dash3 ['\n', '\n'] (by decide)]
    simp [consHead]
  -- trimming exposes the six lines
  have htrim : trimL ('\n' :: (fbBody d t ++ ['\n'])) = fbBody d t := by
    have hassoc : fbBody d t
        = (fbLine1 ++ '\n' :: (fbLine2 ++ '\n' :: (fbLine3 ++ '\n' :: (fbLine4 ++ '\n' ::
            ((fbDatePre ++ d.data ++ ['"']) ++ '\n' :: (fbTypePre ++ t.data)))))) ++ ['"'] := by
      simp [fbBody, List.append_assoc]
    have hlast : (fbBody d t).getLast? = some '"' := by
      rw [hassoc]
      exact List.getLast?_concat _
    exact trimL_nl_wrap (c := 't') rfl (by decide) hlast (by decide)
  have hdateNoNl : '\n' ∉ fbDatePre ++ d.data ++ ['"'] := by
    intro hm
    rcases List.mem_append.mp hm with hm | hm
    · rcases List.mem_append.mp hm with hm | hm
      · revert hm; decide
      · exact hdnl hm
    · revert hm; decide
  have htypeNoNl : '\n' ∉ fbTypePre ++ t.data ++ ['"'] := by
    intro hm
    rcases List.mem_append.mp hm with hm | hm
    · rcases List.mem_append.mp hm with hm | hm
      · revert hm; decide
      · exact htnl hm
    · revert hm; decide
  have hlines : splitOnL ['\n'] (fbBody d t)
      = [fbLine1, fbLine2, fbLine3, fbLine4,
         fbDatePre ++ d.data ++ ['"'], fbTypePre ++ t.data ++ ['"']] := by
    rw [fbBody,
        splitNl_append _ _ (by decide),
        splitNl_append _ _ (by decide),
        splitNl_append _ _ (by decide),
        splitNl_append _ _ (by decide),
        splitNl_append _ _ hdateNoNl,
        splitNl_no _ htypeNoNl]
  -- the date and type lines pass the quote checks
  have htrimdate : trimL (fbDatePre ++ d.data ++ ['"']) = fbDatePre ++ d.data ++ ['"'] :=
    trimL_eq_self_of (c := 'd') rfl (by decide) (List.getLast?_concat _) (by decide)
  have htrimtype : trimL (fbTypePre ++ t.data ++ ['"']) = fbTypePre ++ t.data ++ ['"'] :=
    trimL_eq_self_of (c := 't') rfl (by decide) (List.getLast?_concat _) (by decide)
  have hcd1 : (trimL (fbDatePre ++ d.data ++ ['"'])).count '"' % 2 = 0 := by
    rw [htrimdate, List.count_append, List.count_append, List.count_eq_zero.mpr hdq]
    decide
  have hcd2 : (trimL (fbDatePre ++ d.data ++ ['"'])).count sqChar % 2 = 0 := by
    rw [htrimdate, List.count_append, List.count_append, List.count_eq_zero.mpr hdsq]
    decide
  have hct1 : (trimL (fbTypePre ++ t.data ++ ['"'])).count '"' % 2 = 0 := by
    rw [htrimtype, List.count_append, List.count_append, List.count_eq_zero.mpr htq]
    decide
  have hct2 : (trimL (fbTypePre ++ t.data ++ ['"'])).count sqChar % 2 = 0 := by
    rw [htrimtype, List.count_append, List.count_append, List.count_eq_zero.mpr htsq]
    decide
  -- assemble the validator run
  have hpre : "---".data.isPrefixOf (fallback_front_matter d t).data = true := by
    rw [hdata, show ("---" : String).data = dash3 from rfl, List.isPrefixOf_iff_prefix]
    exact List.prefix_append _ _
  unfold validate_yaml_front_matter
  rw [if_pos hpre, show ("---" : String).data = dash3 from rfl, hsplit]
  show (checkLines (splitOnL ['\n'] (trimL ('\n' :: (fbBody d t ++ ['\n']))))).1 = true
  rw [htrim, hlines,
      checkLines_cons_pass _ _ (by decide) (by decide),
      checkLines_cons_pass _ _ (by decide) (by decide),
      checkLines_cons_pass _ _ (by decide) (by decide),
      checkLines_cons_pass _ _ (by decide) (by decide),
      checkLines_cons_pass _ _ hcd1 hcd2,
      checkLines_cons_pass _ _ hct1 hct2]
  rfl

/-- C2, counterexample: with `date` equal to a lone double-quote character
the assembled header fails validation (line `date: '"'` has one double
quote), so the fallback is returned — but the fallback interpolates the
raw date, producing the line `date: """`, which itself fails validation.
`BuildHeader` thus returns an unparseable header. -/
theorem c2_counterexample :
    (validate_yaml_front_matter
      (create_safe_front_matter "t" "s" "c" [] "\"" "wp" none)).1 = false := by
  decide

/-- C2, amended: for every combination of title, subtitle, category, tags
and optional id — the fields fuzzed with quotes, backslashes, tag syntax
and markdown-link syntax — and for every date and type value containing
no double quote, no single quote, no newline and no `---` sequence, the
header returned by `create_safe_front_matter` passes validation: either
the assembled header validates and is returned, or it is replaced
wholesale by the fallback, which itself validates for such date/type
values.  (The proviso on date/type is necessary: the fallback embeds them
unsanitized, as the counterexample shows.) -/
theorem c2_header_validity (title subtitle category : String) (tags : List String)
    (date post_type : String) (wordpress_id : Option Nat)
    (hd : cleanHeaderValue date = true) (hp : cleanHeaderValue post_type = true) :
    (validate_yaml_front_matter
      (create_safe_front_matter title subtitle category tags date post_type wordpress_id)).1
      = true := by
  show (validate_yaml_front_matter
    (if (validate_yaml_front_matter
          (assembled_front_matter title subtitle category tags date post_type wordpress_id)).1
        = true
     then assembled_front_matter title subtitle category tags date post_type wordpress_id
     else fallback_front_matter date post_type)).1 = true
  split
  · assumption
  · exact fallback_front_matter_valid date post_type hd hp

theorem c2_header_validity_witness :
    cleanHeaderValue "2020-01-01" = true ∧ cleanHeaderValue "wp" = true ∧
    (validate_yaml_front_matter
      (create_safe_front_matter "a \"quoted\" title" "see [broken](link..." "my cat"
        ["x\"y", "plain"] "2020-01-01" "wp" none)).1 = true :=
  ⟨by decide, by decide,
   c2_header_validity "a \"quoted\" title" "see [broken](link..." "my cat"
     ["x\"y", "plain"] "2020-01-01" "wp" none (by decide) (by decide)⟩

/-! ### Markup conversion claims -/

/-- C5: evaluation of the conversion at the ordered list
`<ol><li>a</li><li>b</li></ol>`.  The output is `"- a- b"`: the `<li>`
rule (shared with unordered lists) has already rewritten both items to
`- item` before the ordered-list tags are removed, and the sequential
counter the source defines for ordered-list items (`replace_ol_item`) is
never passed to `re.sub`.  The items are not rendered as `1. a` / `2. b`. -/
theorem c5_ordered_list_items :
    html_to_markdown "<ol><li>a</li><li>b</li></ol>" = "- a- b" := by
  rfl

/-- C8: `html_to_markdown` and `create_safe_front_matter` are
deterministic — two calls on the same input return the same output.  In
this embedding both are pure functions, which is faithful to the source:
neither reads or writes any state shared between calls (the
`ol_counter`/`replace_ol_item` closure in `html_to_markdown` is local to
one call, and is dead code besides). -/
theorem c8_deterministic (html title subtitle category : String) (tags : List String)
    (date post_type : String) (wid : Option Nat) :
    html_to_markdown html = html_to_markdown html ∧
    create_safe_front_matter title subtitle category tags date post_type wid =
      create_safe_front_matter title subtitle category tags date post_type wid :=
  ⟨rfl, rfl⟩

/-! ### Excerpt claim -/

/-- C6: for a plain string (one the excerpt normalization leaves
unchanged), if it is 250 characters long and the last space among its
first 200 characters sits at or before index 160 (80% of 200), the
excerpt is exactly the first 200 characters plus an ellipsis; if it is
longer than 200 characters and that last space sits at index 190, the
excerpt is the first 190 characters plus an ellipsis. -/
theorem c6_excerpt_boundary (s : String) (hplain : excerptNorm s = s) :
    (s.data.length = 250 → rfindSpace (s.data.take 200) ≤ 160 →
       extract_excerpt s 200 = ⟨s.data.take 200 ++ "...".data⟩) ∧
    (200 < s.data.length → rfindSpace (s.data.take 200) = 190 →
       extract_excerpt s 200 = ⟨s.data.take 190 ++ "...".data⟩) := by
  constructor
  · intro h250 hsp
    have hne : s ≠ "" := by
      intro h
      rw [h] at h250
      simp at h250
    have h1 : ¬ (s.data.length ≤ 200) := by omega
    have h2 : ¬ (4 * ((200 : Nat) : Int) < 5 * rfindSpace (s.data.take 200)) := by
      push_cast
      omega
    simp only [extract_excerpt, hplain, if_neg hne, if_neg h1, if_neg h2]
  · intro hlong hsp
    have hne : s ≠ "" := by
      intro h
      rw [h] at hlong
      simp at hlong
    have h1 : ¬ (s.data.length ≤ 200) := by omega
    have h2 : 4 * ((200 : Nat) : Int) < 5 * rfindSpace (s.data.take 200) := by
      push_cast
      omega
    simp only [extract_excerpt, hplain, if_neg hne, if_neg h1, if_pos h2, hsp]
    rw [List.take_take]
    have h190 : (190 : Int).toNat = 190 := rfl
    rw [h190]
    norm_num

set_option maxRecDepth 100000 in
theorem c6_excerpt_boundary_witness :
    (excerptNorm c6s1 = c6s1 ∧ c6s1.data.length = 250 ∧
       rfindSpace (c6s1.data.take 200) ≤ 160 ∧
       extract_excerpt c6s1 200 = ⟨c6s1.data.take 200 ++ "...".data⟩) ∧
    (excerptNorm c6s2 = c6s2 ∧ 200 < c6s2.data.length ∧
       rfindSpace (c6s2.data.take 200) = 190 ∧
       extract_excerpt c6s2 200 = ⟨c6s2.data.take 190 ++ "...".data⟩) :=
  ⟨⟨by decide, by decide, by decide,
    (c6_excerpt_boundary c6s1 (by decide)).1 (by decide) (by decide)⟩,
   ⟨by decide, by decide, by decide,
    (c6_excerpt_boundary c6s2 (by decide)).2 (by decide) (by decide)⟩⟩

/-- C10: after `c10Q2` replaces `c10Q1` (KEPT_NEWER), the fingerprint of
`c10Q1` stays in `seen_hashes` mapping to the discarded `c10Q1`; the later
`c10Q3`, whose content equals `c10Q1`'s, is recorded as a CONTENT_DUPLICATE
whose `original_id` (`some 1`) names a record absent from the final unique
output. -/
theorem c10_stale_hash_survivor :
    find_duplicates [c10Q1, c10Q2, c10Q3] =
      ([c10Q2],
       [{ type := DupType.title_duplicate, original_id := some 1,
          original_date := "2020-01-01", duplicate_id := some 2,
          duplicate_date := "2020-06-01", title := "t",
          action := some DupAction.kept_newer },
        { type := DupType.content_duplicate, original_id := some 1,
          original_date := "2020-01-01", duplicate_id := some 3,
          duplicate_date := "2020-07-01", title := "t",
          action := none }]) ∧
    some 1 ∉ (find_duplicates [c10Q1, c10Q2, c10Q3]).1.map Post.id := by
  refine ⟨rfl, ?_⟩
  decide

end Cleancont
